import Mathlib

/-
Verification of the natural-language specification of PIIRedactor
(src/pii_redactor.py) against a shallow embedding of its code.

The redactor walks an ordered table of regular expressions and, for each,
counts the matches in the working text (re.findall with re.IGNORECASE),
records the count, updates cumulative statistics, and replaces every match
with a fixed placeholder (re.sub).  The patterns use only: literal
characters, character classes with counted greedy repetition, the word
boundary `\b`, and one negative lookahead `(?!\s?\d)`.  The embedding below
implements exactly those constructs with Python's leftmost, greedy,
backtracking match semantics over ASCII text (an 8-bit alphabet suffices
for every pattern of the table), and the findall/sub scan of leftmost
non-overlapping matches.
-/

namespace PII

/-- Code point of a character. -/
def cp (c : Char) : Nat := c.toNat

/-- Lowercase an ASCII code point. -/
def lowerN (n : Nat) : Nat := if 65 ≤ n ∧ n ≤ 90 then n + 32 else n

/-- Uppercase an ASCII code point. -/
def upperN (n : Nat) : Nat := if 97 ≤ n ∧ n ≤ 122 then n - 32 else n

/-- A character class: a list of inclusive code-point ranges. -/
def CClass : Type := List (Nat × Nat)

/-- Raw membership of a code point in a class. -/
def inCls (k : CClass) (n : Nat) : Bool := k.any (fun p => decide (p.1 ≤ n ∧ n ≤ p.2))

/-- Case-insensitive class membership (re.IGNORECASE on ASCII: a character
matches if any of its case variants lies in the class). -/
def memCI (k : CClass) (c : Char) : Bool :=
  inCls k (cp c) || inCls k (lowerN (cp c)) || inCls k (upperN (cp c))

/-- Case-insensitive literal character comparison. -/
def ciEqC (c ch : Char) : Bool := lowerN (cp c) == lowerN (cp ch)

/-- Python regex word character, ASCII part: [A-Za-z0-9_]. -/
def isWordC (c : Char) : Bool :=
  inCls [(65, 90), (97, 122), (48, 57), (95, 95)] (cp c)

/-- Python regex digit, ASCII part: [0-9]. -/
def isDigitC (c : Char) : Bool := inCls [(48, 57)] (cp c)

/-- Python regex whitespace, ASCII part: space, tab, LF, VT, FF, CR. -/
def isSpaceC (c : Char) : Bool := inCls [(9, 13), (32, 32)] (cp c)

/-- Regex atoms used by the patterns of PIIRedactor.PATTERNS: literal
characters, greedily repeated character classes with a count range
(`hi = none` meaning unbounded), the word boundary, and the one negative
lookahead `(?!\s?\d)` of the phone_india pattern. -/
inductive RE where
  | lit (ch : Char)
  | cls (k : CClass) (lo : Nat) (hi : Option Nat)
  | wb
  | nlaSD

/-- Is the head of the remaining text a word character (false at the end). -/
def headWord : List Char → Bool
  | [] => false
  | c :: _ => isWordC c

/-- Is the head of the remaining text a digit. -/
def headDigit : List Char → Bool
  | [] => false
  | c :: _ => isDigitC c

/-- Does `\s?\d` match at the front of the text (the body of the negative
lookahead): either the first character is a digit, or it is whitespace
followed by a digit. -/
def lookSD : List Char → Bool
  | [] => false
  | c :: s => isDigitC c || (isSpaceC c && headDigit s)

/-- Greedy repetition of a single-character class with an optional
remaining budget, backtracking into the continuation (longest first,
exactly Python's preference order).  Returns the consumed count and the
word-ness of the last consumed character. -/
def greedyC (k : CClass) (cont : Bool → List Char → Option (Nat × Bool)) :
    Option Nat → Bool → List Char → Option (Nat × Bool)
  | some 0, pw, s => cont pw s
  | _, pw, [] => cont pw []
  | b, pw, c :: s =>
    if memCI k c then
      match greedyC k cont (b.map (· - 1)) (isWordC c) s with
      | some (n, p) => some (n + 1, p)
      | none => cont pw (c :: s)
    else cont pw (c :: s)

/-- Mandatory part of a class repetition: exactly m single-character
matches, then the continuation. -/
def mandC (k : CClass) (cont : Bool → List Char → Option (Nat × Bool)) :
    Nat → Bool → List Char → Option (Nat × Bool)
  | 0, pw, s => cont pw s
  | _ + 1, _, [] => none
  | m + 1, _, c :: s =>
    if memCI k c then
      match mandC k cont m (isWordC c) s with
      | some (n, p) => some (n + 1, p)
      | none => none
    else none

/-- Backtracking matcher for a sequence of atoms at the front of the text,
with Python's greedy preference order.  `pw` records whether the previous
character is a word character (false at the start of the string).  Returns
the length of the preferred match and the final `pw`.  The fuel is the
length of the pattern, which bounds the recursion depth. -/
def matchSeqF : Nat → List RE → Bool → List Char → Option (Nat × Bool)
  | _, [], pw, _ => some (0, pw)
  | 0, _ :: _, _, _ => none
  | f + 1, r :: rest, pw, s =>
    match r with
    | .lit ch =>
      match s with
      | [] => none
      | c :: s' =>
        if ciEqC c ch then
          match matchSeqF f rest (isWordC c) s' with
          | some (n, p) => some (n + 1, p)
          | none => none
        else none
    | .wb => if pw != headWord s then matchSeqF f rest pw s else none
    | .nlaSD => if lookSD s then none else matchSeqF f rest pw s
    | .cls k lo hi =>
      mandC k (fun pw2 s2 =>
        greedyC k (fun pw3 s3 => matchSeqF f rest pw3 s3) (hi.map (· - lo)) pw2 s2) lo pw s

/-- The preferred match of a whole pattern at the front of the text. -/
def matchAt (p : List RE) (pw : Bool) (s : List Char) : Option (Nat × Bool) :=
  matchSeqF p.length p pw s

/-- The scan shared by re.findall and re.sub: leftmost non-overlapping
matches, counted and spliced out for the replacement in one pass.  The
fuel is the length of the text: every step consumes at least one
character and one unit of fuel. -/
def subScanF (p : List RE) (repl : List Char) : Nat → Bool → List Char → Nat × List Char
  | _, _, [] => (0, [])
  | 0, _, s => (0, s)
  | f + 1, pw, c :: s =>
    match matchAt p pw (c :: s) with
    | some (L, pw') =>
      if L = 0 then
        let r := subScanF p repl f (isWordC c) s
        (r.1 + 1, repl ++ c :: r.2)
      else
        let r := subScanF p repl f pw' ((c :: s).drop L)
        (r.1 + 1, repl ++ r.2)
    | none =>
      let r := subScanF p repl f (isWordC c) s
      (r.1, c :: r.2)

/-- Digits 0-9. -/
def digitR : CClass := [(48, 57)]

/-- Whitespace. -/
def spaceR : CClass := [(9, 13), (32, 32)]

/-- Uppercase letters A-Z (case-folded by re.IGNORECASE). -/
def upperR : CClass := [(65, 90)]

/-- The class [A-Z0-9]. -/
def alnumUR : CClass := [(65, 90), (48, 57)]

/-- The class [- ]. -/
def dashSpR : CClass := [(45, 45), (32, 32)]

/-- The class [6-9]. -/
def six9R : CClass := [(54, 57)]

/-- The class [Aa]. -/
def AaR : CClass := [(65, 65), (97, 97)]

/-- The class [Nn]. -/
def NnR : CClass := [(78, 78), (110, 110)]

/-- A literal dot, as the optional atom of account_number. -/
def dotR : CClass := [(46, 46)]

/-- A literal colon, as the optional atom of account_number. -/
def colonR : CClass := [(58, 58)]

/-- The email local-part class [A-Za-z0-9._%+-]. -/
def emailLocalR : CClass :=
  [(65, 90), (97, 122), (48, 57), (46, 46), (95, 95), (37, 37), (43, 43), (45, 45)]

/-- The email domain class [A-Za-z0-9.-]. -/
def emailDomR : CClass := [(65, 90), (97, 122), (48, 57), (46, 46), (45, 45)]

/-- The email top-level class [A-Z|a-z], pipe included as written. -/
def emailTldR : CClass := [(65, 90), (124, 124), (97, 122)]

/-- A class repeated exactly n times. -/
def cN (k : CClass) (n : Nat) : RE := .cls k n (some n)

/-- An optional single occurrence of a class. -/
def cOpt (k : CClass) : RE := .cls k 0 (some 1)

/-- Pattern of credit_card. -/
def ccPat : List RE :=
  [.wb, cN digitR 4, cOpt dashSpR, cN digitR 4, cOpt dashSpR, cN digitR 4, cOpt dashSpR,
   cN digitR 4, .wb]

/-- Pattern of iban. -/
def ibanPat : List RE :=
  [.wb, cN upperR 2, cN digitR 2, cOpt spaceR, cN alnumUR 4, cOpt spaceR, cN alnumUR 4,
   cOpt spaceR, cN alnumUR 4, cOpt spaceR, .cls alnumUR 0 (some 18), .wb]

/-- Pattern of account_number. -/
def acctPat : List RE :=
  [.wb, cN AaR 1, .lit 'c', .lit 'c', .lit 'o', .lit 'u', .lit 'n', .lit 't', cOpt spaceR,
   cN NnR 1, .lit 'o', cOpt dotR, cOpt spaceR, cOpt colonR, cOpt spaceR,
   .cls digitR 8 (some 18), .wb]

/-- Pattern of phone_india_code. -/
def phcPat : List RE :=
  [.lit '+', .lit '9', .lit '1', cOpt dashSpR, cN six9R 1, cN digitR 9, .wb]

/-- Pattern of phone_india, with its trailing negative lookahead. -/
def phPat : List RE := [.wb, cN six9R 1, cN digitR 9, .wb, .nlaSD]

/-- Pattern of aadhaar. -/
def aadhaarPat : List RE :=
  [.wb, cN digitR 4, cN spaceR 1, cN digitR 4, cN spaceR 1, cN digitR 4, .wb]

/-- Pattern of pan_card. -/
def panPat : List RE := [.wb, cN upperR 5, cN digitR 4, cN upperR 1, .wb]

/-- Pattern of ifsc. -/
def ifscPat : List RE := [.wb, cN upperR 4, .lit '0', cN alnumUR 6, .wb]

/-- Pattern of uk_ni. -/
def ukNiPat : List RE :=
  [.wb, cN upperR 2, cOpt spaceR, cN digitR 2, cOpt spaceR, cN digitR 2, cOpt spaceR,
   cN digitR 2, cOpt spaceR, cN upperR 1, .wb]

/-- Pattern of uk_sort. -/
def ukSortPat : List RE :=
  [.wb, cN digitR 2, .lit '-', cN digitR 2, .lit '-', cN digitR 2, .wb]

/-- Pattern of au_medicare. -/
def medicarePat : List RE :=
  [.wb, cN digitR 4, cN spaceR 1, cN digitR 5, cN spaceR 1, cN digitR 1, .wb]

/-- Pattern of us_ssn. -/
def ssnPat : List RE :=
  [.wb, cN digitR 3, cN dashSpR 1, cN digitR 2, cN dashSpR 1, cN digitR 4, .wb]

/-- Pattern of us_routing, exactly as written in the source: a word-bounded
zero followed by eight digits. -/
def routingPat : List RE := [.wb, .lit '0', cN digitR 8, .wb]

/-- Pattern of au_tfn_ca_sin. -/
def tfnSinPat : List RE :=
  [.wb, cN digitR 3, cN spaceR 1, cN digitR 3, cN spaceR 1, cN digitR 3, .wb]

/-- Pattern of email. -/
def emailPat : List RE :=
  [.wb, .cls emailLocalR 1 none, .lit '@', .cls emailDomR 1 none, .lit '.',
   .cls emailTldR 2 none, .wb]

/-- One entry of PIIRedactor.PATTERNS: category name, compiled pattern,
replacement string. -/
structure PatEntry where
  name : String
  pat : List RE
  repl : List Char

/-- PIIRedactor.PATTERNS in its source order. -/
def PATTERNS : List PatEntry :=
  [⟨"credit_card", ccPat, "[CREDIT_CARD_REDACTED]".data⟩,
   ⟨"iban", ibanPat, "[IBAN_REDACTED]".data⟩,
   ⟨"account_number", acctPat, "Account No: [REDACTED]".data⟩,
   ⟨"phone_india_code", phcPat, "[PHONE_REDACTED]".data⟩,
   ⟨"phone_india", phPat, "[PHONE_REDACTED]".data⟩,
   ⟨"aadhaar", aadhaarPat, "[AADHAAR_REDACTED]".data⟩,
   ⟨"pan_card", panPat, "[PAN_REDACTED]".data⟩,
   ⟨"ifsc", ifscPat, "[IFSC_REDACTED]".data⟩,
   ⟨"uk_ni", ukNiPat, "[UK_NI_REDACTED]".data⟩,
   ⟨"uk_sort", ukSortPat, "[UK_SORT_REDACTED]".data⟩,
   ⟨"au_medicare", medicarePat, "[AU_MEDICARE_REDACTED]".data⟩,
   ⟨"us_ssn", ssnPat, "[US_SSN_REDACTED]".data⟩,
   ⟨"us_routing", routingPat, "[US_ROUTING_REDACTED]".data⟩,
   ⟨"au_tfn_ca_sin", tfnSinPat, "[TAX_ID_REDACTED]".data⟩,
   ⟨"email", emailPat, "[EMAIL_REDACTED]".data⟩]

/-- re.findall count and re.sub result of one pattern on the working text. -/
def applyPat (e : PatEntry) (t : List Char) : Nat × List Char :=
  subScanF e.pat e.repl t.length false t

/-- The cumulative statistics self.stats. -/
structure Stats where
  total : Nat
  by_type : List (String × Nat)
deriving DecidableEq

/-- self.stats at construction. -/
def initStats : Stats := ⟨0, []⟩

/-- The update by_type[t] = by_type.get(t, 0) + count. -/
def bump : List (String × Nat) → String → Nat → List (String × Nat)
  | [], k, n => [(k, n)]
  | (k', v) :: rest, k, n =>
    if k' = k then (k', v + n) :: rest else (k', v) :: bump rest k n

/-- State produced by the pattern loop: working text, redaction counts in
insertion order, and the updated statistics. -/
structure RunOut where
  text : List Char
  rd : List (String × Nat)
  st : Stats
deriving DecidableEq

/-- The main loop of redact: for each pattern in the fixed table order,
skip the email rule when emails are preserved, otherwise count matches on
the current working text and, when any were found, record the count,
update the statistics, and substitute the placeholder. -/
def runPatterns (preserve : Bool) : List PatEntry → Stats → List Char → RunOut
  | [], st, t => ⟨t, [], st⟩
  | e :: ps, st, t =>
    if e.name == "email" && preserve then runPatterns preserve ps st t
    else
      let r := applyPat e t
      if 0 < r.1 then
        let out := runPatterns preserve ps ⟨st.total + r.1, bump st.by_type e.name r.1⟩ r.2
        ⟨out.text, (e.name, r.1) :: out.rd, out.st⟩
      else runPatterns preserve ps st t

/-- The dictionary returned by redact. -/
structure RResult where
  redacted_text : List Char
  redactions : List (String × Nat)
  has_pii : Bool
deriving DecidableEq

/-- PIIRedactor.redact on a string, threading the stats state: an empty
string short-circuits to the empty result, otherwise the pattern loop
runs and has_pii reports whether any category fired. -/
def redactStr (preserve : Bool) (st : Stats) (text : List Char) : RResult × Stats :=
  if text.isEmpty then (⟨[], [], false⟩, st)
  else
    let out := runPatterns preserve PATTERNS st text
    (⟨out.text, out.rd, !out.rd.isEmpty⟩, out.st)

/-- A dynamically typed caller-supplied value, as Python passes it to
redact: a string, an integer, a boolean, None, or a list. -/
inductive PyVal where
  | pstr (s : List Char)
  | pint (n : Int)
  | pbool (b : Bool)
  | pnone
  | plist (l : List Int)
deriving DecidableEq

/-- Python truthiness, as tested by `if not text`. -/
def truthy : PyVal → Bool
  | .pstr s => !s.isEmpty
  | .pint n => n != 0
  | .pbool b => b
  | .pnone => false
  | .plist l => !l.isEmpty

/-- Is the value a string. -/
def isStr : PyVal → Bool
  | .pstr _ => true
  | _ => false

/-- The error kind raised on misuse: re.findall raises TypeError
("expected string or bytes-like object") when handed a non-string. -/
inductive PyErr where
  | typeError
deriving DecidableEq

/-- PIIRedactor.redact on an arbitrary Python value: a falsy value (empty
string, None, 0, False, empty list) takes the `if not text` early return;
a truthy string runs the pattern loop; any truthy non-string reaches
re.findall, which raises TypeError before any state is changed. -/
def redactVal (preserve : Bool) (st : Stats) (v : PyVal) :
    Except PyErr (RResult × Stats) :=
  if !truthy v then .ok (⟨[], [], false⟩, st)
  else
    match v with
    | .pstr s => .ok (redactStr preserve st s)
    | _ => .error .typeError

/-- Sum of the counts of an association list. -/
def sumVals : List (String × Nat) → Nat
  | [] => 0
  | x :: l => x.2 + sumVals l

/-- Lookup with default 0, the read counterpart of bump. -/
def lookupD (l : List (String × Nat)) (k : String) : Nat := ((l.lookup k).getD 0)

/-- N concatenated copies of a block. -/
def repeatL (B : List Char) : Nat → List Char
  | 0 => []
  | n + 1 => B ++ repeatL B n

/-- The statistics after a sequence of redact calls on one redactor
constructed with fresh stats. -/
def runCalls (preserve : Bool) (texts : List (List Char)) : Stats :=
  texts.foldl (fun st t => (redactStr preserve st t).2) initStats

/-- Does the second list start with the first. -/
def isStartOf : List Char → List Char → Bool
  | [], _ => true
  | _ :: _, [] => false
  | c :: n, d :: h => c == d && isStartOf n h

/-- Does the needle occur as a contiguous substring of the haystack. -/
def occursIn (needle : List Char) : List Char → Bool
  | [] => needle.isEmpty
  | c :: s => isStartOf needle (c :: s) || occursIn needle s

/-- The block used to witness count correctness: one uk_sort instance
followed by a separator that no pattern of the table can match into. -/
def Buk : List Char := "12-34-56; ".data

/-- The uk_sort entry of the table. -/
def ukSortEntry : PatEntry := ⟨"uk_sort", ukSortPat, "[UK_SORT_REDACTED]".data⟩

/-- The nine entries of the table that precede uk_sort. -/
def ukSortPre : List PatEntry :=
  [⟨"credit_card", ccPat, "[CREDIT_CARD_REDACTED]".data⟩,
   ⟨"iban", ibanPat, "[IBAN_REDACTED]".data⟩,
   ⟨"account_number", acctPat, "Account No: [REDACTED]".data⟩,
   ⟨"phone_india_code", phcPat, "[PHONE_REDACTED]".data⟩,
   ⟨"phone_india", phPat, "[PHONE_REDACTED]".data⟩,
   ⟨"aadhaar", aadhaarPat, "[AADHAAR_REDACTED]".data⟩,
   ⟨"pan_card", panPat, "[PAN_REDACTED]".data⟩,
   ⟨"ifsc", ifscPat, "[IFSC_REDACTED]".data⟩,
   ⟨"uk_ni", ukNiPat, "[UK_NI_REDACTED]".data⟩]

/-- The five entries of the table that follow uk_sort. -/
def ukSortPost : List PatEntry :=
  [⟨"au_medicare", medicarePat, "[AU_MEDICARE_REDACTED]".data⟩,
   ⟨"us_ssn", ssnPat, "[US_SSN_REDACTED]".data⟩,
   ⟨"us_routing", routingPat, "[US_ROUTING_REDACTED]".data⟩,
   ⟨"au_tfn_ca_sin", tfnSinPat, "[TAX_ID_REDACTED]".data⟩,
   ⟨"email", emailPat, "[EMAIL_REDACTED]".data⟩]




theorem subScanF_nil (p : List RE) (r : List Char) (f : Nat) (pw : Bool) :
    subScanF p r f pw [] = (0, []) := by
  cases f <;> rfl

theorem subScan_canon (p : List RE) (r : List Char) :
    ∀ (n : Nat) (s : List Char), s.length ≤ n → ∀ (f : Nat) (pw : Bool),
      s.length ≤ f → subScanF p r f pw s = subScanF p r s.length pw s := by
  intro n
  induction n with
  | zero =>
    intro s hs f pw _
    have h0 : s = [] := List.length_eq_zero.mp (Nat.le_zero.mp hs)
    subst h0
    simp [subScanF_nil]
  | succ n ih =>
    intro s hs f pw hf
    cases s with
    | nil => simp [subScanF_nil]
    | cons c s' =>
      cases f with
      | zero => simp at hf
      | succ f'' =>
        have hs' : s'.length ≤ n := by
          have := hs; simp only [List.length_cons] at this; omega
        have hf' : s'.length ≤ f'' := by
          simp only [List.length_cons] at hf; omega
        rcases hm : matchAt p pw (c :: s') with _ | ⟨L, pw'⟩
        · simp only [subScanF, List.length_cons, hm]
          rw [ih s' hs' f'' (isWordC c) hf', ih s' hs' s'.length (isWordC c) (le_refl _)]
        · by_cases hL : L = 0
          · subst hL
            simp only [subScanF, List.length_cons, hm, if_pos]
            rw [ih s' hs' f'' (isWordC c) hf', ih s' hs' s'.length (isWordC c) (le_refl _)]
          · simp only [subScanF, List.length_cons, hm, if_neg hL]
            have hd : ((c :: s').drop L).length ≤ s'.length := by
              simp only [List.length_drop, List.length_cons]; omega
            rw [ih ((c :: s').drop L) (le_trans hd hs') f'' pw' (le_trans hd hf'),
                ih ((c :: s').drop L) (le_trans hd hs') s'.length pw' hd]

theorem subScan_fuel (p : List RE) (r : List Char) (f f' : Nat) (pw : Bool) (s : List Char)
    (h : s.length ≤ f) (h' : s.length ≤ f') :
    subScanF p r f pw s = subScanF p r f' pw s := by
  rw [subScan_canon p r s.length s (le_refl _) f pw h,
      subScan_canon p r s.length s (le_refl _) f' pw h']

theorem subScan_cnt0 (p : List RE) (r : List Char) :
    ∀ (f : Nat) (pw : Bool) (s : List Char),
      (subScanF p r f pw s).1 = 0 → (subScanF p r f pw s).2 = s := by
  intro f
  induction f with
  | zero => intro pw s _; cases s <;> rfl
  | succ f ih =>
    intro pw s h
    cases s with
    | nil => rfl
    | cons c s' =>
      rcases hm : matchAt p pw (c :: s') with _ | ⟨L, pw'⟩
      · simp only [subScanF, hm] at h ⊢
        rw [ih (isWordC c) s' h]
      · exfalso
        simp only [subScanF, hm] at h
        split at h <;> simp at h


theorem runPatterns_params (p : Bool) :
    ∀ (ps : List PatEntry) (st st' : Stats) (t : List Char),
      (runPatterns p ps st t).text = (runPatterns p ps st' t).text ∧
      (runPatterns p ps st t).rd = (runPatterns p ps st' t).rd := by
  intro ps
  induction ps with
  | nil => intro st st' t; exact ⟨rfl, rfl⟩
  | cons e ps ih =>
    intro st st' t
    by_cases hsk : (e.name == "email" && p) = true
    · simp only [runPatterns, hsk, if_true]
      exact ih st st' t
    · simp only [runPatterns, hsk, if_false, Bool.false_eq_true]
      by_cases hc : 0 < (applyPat e t).1
      · simp only [hc, if_true]
        obtain ⟨h1, h2⟩ := ih ⟨st.total + (applyPat e t).1, bump st.by_type e.name (applyPat e t).1⟩
          ⟨st'.total + (applyPat e t).1, bump st'.by_type e.name (applyPat e t).1⟩ (applyPat e t).2
        exact ⟨h1, by rw [h2]⟩
      · simp only [hc, if_false]
        exact ih st st' t

theorem runPatterns_rd_nil (p : Bool) :
    ∀ (ps : List PatEntry) (st : Stats) (t : List Char),
      (runPatterns p ps st t).rd = [] → (runPatterns p ps st t).text = t := by
  intro ps
  induction ps with
  | nil => intro st t _; rfl
  | cons e ps ih =>
    intro st t h
    by_cases hsk : (e.name == "email" && p) = true
    · simp only [runPatterns, hsk, if_true] at h ⊢
      exact ih st t h
    · simp only [runPatterns, hsk, if_false, Bool.false_eq_true] at h ⊢
      by_cases hc : 0 < (applyPat e t).1
      · simp only [hc, if_true] at h
        exact absurd h (List.cons_ne_nil _ _)
      · simp only [hc, if_false] at h ⊢
        exact ih st t h

theorem runPatterns_email_none :
    ∀ (ps : List PatEntry) (st : Stats) (t : List Char),
      ((runPatterns true ps st t).rd).lookup "email" = none := by
  intro ps
  induction ps with
  | nil => intro st t; rfl
  | cons e ps ih =>
    intro st t
    by_cases he : e.name = "email"
    · have hsk : (e.name == "email" && true) = true := by simp [he]
      simp only [runPatterns, hsk, if_true]
      exact ih st t
    · have hsk : (e.name == "email" && true) = false := by simp [he]
      simp only [runPatterns, hsk, Bool.false_eq_true, if_false]
      by_cases hc : 0 < (applyPat e t).1
      · simp only [hc, if_true]
        have hne : ("email" == e.name) = false := by
          simp [BEq.beq]; exact fun hx => he hx.symm
        simp only [List.lookup, hne, Bool.false_eq_true, if_false]
        exact ih _ _
      · simp only [hc, if_false]
        exact ih st t

theorem runPatterns_pre_zero (p : Bool) :
    ∀ (ps rest : List PatEntry) (st : Stats) (t : List Char),
      (∀ e ∈ ps, (applyPat e t).1 = 0) →
      runPatterns p (ps ++ rest) st t = runPatterns p rest st t := by
  intro ps
  induction ps with
  | nil => intro rest st t _; rfl
  | cons e ps ih =>
    intro rest st t h
    have he : (applyPat e t).1 = 0 := h e (List.mem_cons_self e ps)
    have hps : ∀ e' ∈ ps, (applyPat e' t).1 = 0 := fun e' m => h e' (List.mem_cons_of_mem e m)
    have hc : ¬ 0 < (applyPat e t).1 := by omega
    by_cases hsk : (e.name == "email" && p) = true
    · simp only [List.cons_append, runPatterns, hsk, if_true]
      exact ih rest st t hps
    · simp only [List.cons_append, runPatterns, hsk, Bool.false_eq_true, if_false, hc]
      exact ih rest st t hps

theorem applyPat_nil (e : PatEntry) : applyPat e [] = (0, []) := rfl

theorem applyPat_repeat_zero (e : PatEntry) (B : List Char)
    (h : ∀ t, (applyPat e (B ++ t)).1 = (applyPat e t).1) :
    ∀ n, (applyPat e (repeatL B n)).1 = 0 := by
  intro n
  induction n with
  | zero => rfl
  | succ n ih => rw [repeatL, h (repeatL B n)]; exact ih

theorem applyPat_repeat_self (e : PatEntry) (B : List Char)
    (h : ∀ t, (applyPat e (B ++ t)).1 = (applyPat e t).1 + 1) :
    ∀ n, (applyPat e (repeatL B n)).1 = n := by
  intro n
  induction n with
  | zero => rfl
  | succ n ih => rw [repeatL, h (repeatL B n), ih]

theorem repeatL_ne_nil (B : List Char) (hB : B ≠ []) (n : Nat) (hn : 1 ≤ n) :
    repeatL B n ≠ [] := by
  cases n with
  | zero => omega
  | succ n => simp [repeatL, hB]


theorem lookupD_cons (k k' : String) (v : Nat) (l : List (String × Nat)) :
    lookupD ((k', v) :: l) k = if k = k' then v else lookupD l k := by
  by_cases h : k = k'
  · simp [lookupD, List.lookup, h]
  · have hb : (k == k') = false := by simp [h]
    simp [lookupD, List.lookup, hb, h]

theorem bump_lookupD (bt : List (String × Nat)) (k c : String) (n : Nat) :
    lookupD (bump bt k n) c = lookupD bt c + (if c = k then n else 0) := by
  induction bt with
  | nil =>
    by_cases h : c = k
    · simp [bump, lookupD, List.lookup, h]
    · have hb : (c == k) = false := by simp [h]
      simp [bump, lookupD, List.lookup, hb, h]
  | cons x l ih =>
    obtain ⟨k', v⟩ := x
    by_cases h1 : k' = k
    · subst h1
      by_cases h2 : c = k' <;> simp [bump, lookupD_cons, h2]
    · simp only [bump, h1, if_false]
      by_cases h2 : c = k'
      · subst h2
        have hck : ¬ c = k := h1
        simp [lookupD_cons, hck]
      · simp [lookupD_cons, h2, ih]

theorem bump_sum (bt : List (String × Nat)) (k : String) (n : Nat) :
    sumVals (bump bt k n) = sumVals bt + n := by
  induction bt with
  | nil => simp [bump, sumVals]
  | cons x l ih =>
    obtain ⟨k', v⟩ := x
    by_cases h : k' = k
    · subst h; simp [bump, sumVals]; omega
    · simp [bump, h, sumVals, ih]; omega

theorem runPatterns_total (p : Bool) :
    ∀ (ps : List PatEntry) (st : Stats) (t : List Char),
      (runPatterns p ps st t).st.total = st.total + sumVals (runPatterns p ps st t).rd := by
  intro ps
  induction ps with
  | nil => intro st t; simp [runPatterns, sumVals]
  | cons e ps ih =>
    intro st t
    by_cases hsk : (e.name == "email" && p) = true
    · simp only [runPatterns, hsk, if_true]
      exact ih st t
    · simp only [runPatterns, hsk, Bool.false_eq_true, if_false]
      by_cases hc : 0 < (applyPat e t).1
      · simp only [hc, if_true]
        have hih := ih ⟨st.total + (applyPat e t).1, bump st.by_type e.name (applyPat e t).1⟩ (applyPat e t).2
        dsimp only at hih
        simp only [sumVals]
        omega
      · simp only [hc, if_false]
        exact ih st t

theorem runPatterns_rd_notmem (p : Bool) :
    ∀ (ps : List PatEntry) (st : Stats) (t : List Char) (k : String),
      (∀ e ∈ ps, e.name ≠ k) → lookupD (runPatterns p ps st t).rd k = 0 := by
  intro ps
  induction ps with
  | nil => intro st t k _; rfl
  | cons e ps ih =>
    intro st t k h
    have he : e.name ≠ k := h e (List.mem_cons_self e ps)
    have hps : ∀ e' ∈ ps, e'.name ≠ k := fun e' m => h e' (List.mem_cons_of_mem e m)
    by_cases hsk : (e.name == "email" && p) = true
    · simp only [runPatterns, hsk, if_true]
      exact ih st t k hps
    · simp only [runPatterns, hsk, Bool.false_eq_true, if_false]
      by_cases hc : 0 < (applyPat e t).1
      · simp only [hc, if_true]
        rw [lookupD_cons]
        have : ¬ k = e.name := fun hx => he hx.symm
        simp only [this, if_false]
        exact ih _ _ k hps
      · simp only [hc, if_false]
        exact ih st t k hps

theorem runPatterns_bytype (p : Bool) :
    ∀ (ps : List PatEntry) (st : Stats) (t : List Char) (c : String),
      (List.map PatEntry.name ps).Nodup →
      lookupD (runPatterns p ps st t).st.by_type c =
        lookupD st.by_type c + lookupD (runPatterns p ps st t).rd c := by
  intro ps
  induction ps with
  | nil => intro st t c _; simp [runPatterns, lookupD, List.lookup]
  | cons e ps ih =>
    intro st t c hnd
    simp only [List.map_cons, List.nodup_cons] at hnd
    obtain ⟨hnm, hnd'⟩ := hnd
    by_cases hsk : (e.name == "email" && p) = true
    · simp only [runPatterns, hsk, if_true]
      exact ih st t c hnd'
    · simp only [runPatterns, hsk, Bool.false_eq_true, if_false]
      by_cases hc : 0 < (applyPat e t).1
      · simp only [hc, if_true]
        rw [ih _ _ c hnd']
        dsimp only
        rw [bump_lookupD, lookupD_cons]
        by_cases hce : c = e.name
        · have hnot : ∀ e' ∈ ps, e'.name ≠ c := by
            intro e' m hx
            exact hnm (by rw [← hce, ← hx]; exact List.mem_map_of_mem PatEntry.name m)
          rw [runPatterns_rd_notmem p ps _ _ c hnot]
          simp [hce]
        · simp [hce]
      · simp only [hc, if_false]
        exact ih st t c hnd'

theorem runPatterns_inv (p : Bool) :
    ∀ (ps : List PatEntry) (st : Stats) (t : List Char),
      st.total = sumVals st.by_type →
      (runPatterns p ps st t).st.total = sumVals (runPatterns p ps st t).st.by_type := by
  intro ps
  induction ps with
  | nil => intro st t h; exact h
  | cons e ps ih =>
    intro st t h
    by_cases hsk : (e.name == "email" && p) = true
    · simp only [runPatterns, hsk, if_true]
      exact ih st t h
    · simp only [runPatterns, hsk, Bool.false_eq_true, if_false]
      by_cases hc : 0 < (applyPat e t).1
      · simp only [hc, if_true]
        apply ih
        dsimp only
        simp only [bump_sum]
        omega
      · simp only [hc, if_false]
        exact ih st t h

theorem patterns_names_nodup : (PATTERNS.map PatEntry.name).Nodup := by decide


/-- C1: a span that could match both au_medicare and the generic 9-digit
tax-ID rule is redacted and counted under the earlier rule only: on
"Medicare: 1234 56789 1" redact returns exactly one au_medicare redaction,
no au_tfn_ca_sin entry, and the Medicare placeholder in the text. -/
theorem c1_medicare_before_tax_id :
    (redactStr true initStats "Medicare: 1234 56789 1".data).1.redactions
      = [("au_medicare", 1)] ∧
    ((redactStr true initStats "Medicare: 1234 56789 1".data).1.redactions).lookup
      "au_tfn_ca_sin" = none ∧
    (redactStr true initStats "Medicare: 1234 56789 1".data).1.redacted_text
      = "Medicare: [AU_MEDICARE_REDACTED]".data := by
  refine ⟨by decide, by decide, by decide⟩

/-- C2: evaluation of the code at the failing input: a word-bounded bare
9-digit number starting with 1 is left untouched (its pattern only accepts
a leading 0), while the same number starting with 0 is redacted. -/
theorem c2_routing_leading_one_not_redacted :
    (redactStr true initStats "Routing: 121000248".data).1.redactions = [] ∧
    (redactStr true initStats "Routing: 121000248".data).1.has_pii = false ∧
    (redactStr true initStats "Routing: 121000248".data).1.redacted_text
      = "Routing: 121000248".data ∧
    (redactStr true initStats "Routing: 021000021".data).1.redactions
      = [("us_routing", 1)] := by
  refine ⟨by decide, by decide, by decide, by decide⟩

/-- C3 counterexample: the falsy non-string input 0 does not fail with an
error; it takes the early return and yields a normal empty result. -/
theorem c3_counterexample_falsy_nonstring :
    isStr (PyVal.pint 0) = false ∧
    redactVal true initStats (PyVal.pint 0) = .ok (⟨[], [], false⟩, initStats) :=
  ⟨rfl, rfl⟩

/-- C3 amended: a truthy non-string input fails immediately with the
TypeError raised by re.findall (the InvalidArgument kind), but a falsy
non-string input (None, 0, False, an empty list) instead returns the
normal empty result. -/
theorem c3_nonstring_inputs (preserve : Bool) (st : Stats) (v : PyVal)
    (h : isStr v = false) :
    (truthy v = true → redactVal preserve st v = .error .typeError) ∧
    (truthy v = false → redactVal preserve st v = .ok (⟨[], [], false⟩, st)) := by
  cases v with
  | pstr s => simp [isStr] at h
  | pint n => refine ⟨fun ht => ?_, fun ht => ?_⟩ <;> simp [redactVal, ht]
  | pbool b => refine ⟨fun ht => ?_, fun ht => ?_⟩ <;> simp [redactVal, ht]
  | pnone => refine ⟨fun ht => ?_, fun ht => ?_⟩ <;> simp [redactVal, ht]
  | plist l => refine ⟨fun ht => ?_, fun ht => ?_⟩ <;> simp [redactVal, ht]

/-- Witness for the amended C3 at the concrete truthy non-string 7. -/
theorem c3_nonstring_inputs_witness :
    isStr (PyVal.pint 7) = false ∧
    ((truthy (PyVal.pint 7) = true →
        redactVal true initStats (PyVal.pint 7) = .error .typeError) ∧
     (truthy (PyVal.pint 7) = false →
        redactVal true initStats (PyVal.pint 7) = .ok (⟨[], [], false⟩, initStats))) :=
  ⟨rfl, c3_nonstring_inputs true initStats (PyVal.pint 7) rfl⟩

/-- C4: redact on the empty string or on None does not throw and returns
exactly the empty result, whatever the configuration and prior stats. -/
theorem c4_empty_and_none_inputs (preserve : Bool) (st : Stats) :
    redactVal preserve st (PyVal.pstr []) = .ok (⟨[], [], false⟩, st) ∧
    redactVal preserve st PyVal.pnone = .ok (⟨[], [], false⟩, st) :=
  ⟨rfl, rfl⟩

/-- C5: with preserve_emails true (the default) the email address survives
verbatim and no email redaction is recorded; with preserve_emails false it
is replaced by the placeholder; and with preserve_emails true the email
rule never fires on any input. -/
theorem c5_email_preservation :
    (redactStr true initStats "contact me at a@b.com".data).1.redacted_text
      = "contact me at a@b.com".data ∧
    ((redactStr true initStats "contact me at a@b.com".data).1.redactions).lookup
      "email" = none ∧
    (redactStr false initStats "contact me at a@b.com".data).1.redacted_text
      = "contact me at [EMAIL_REDACTED]".data ∧
    (redactStr false initStats "contact me at a@b.com".data).1.redactions
      = [("email", 1)] ∧
    (∀ (st : Stats) (text : List Char),
      ((redactStr true st text).1.redactions).lookup "email" = none) := by
  refine ⟨by decide, by decide, by decide, by decide, ?_⟩
  intro st text
  by_cases he : text.isEmpty = true
  · simp [redactStr, he, List.lookup]
  · simp only [redactStr, he, Bool.false_eq_true, if_false]
    exact runPatterns_email_none PATTERNS st text

/-- C6 counterexample: the input contains none of the placeholder strings,
yet redacting its redacted output finds new PII: the first pass replaces
the spaced tax ID, which unblocks the phone rule's trailing negative
lookahead, so the second pass fires on the ten-digit number. -/
theorem c6_counterexample_not_idempotent :
    (PATTERNS.all (fun e => !occursIn e.repl "9876543210 123 456 789".data)) = true ∧
    (redactStr true initStats
      (redactStr true initStats "9876543210 123 456 789".data).1.redacted_text).1.has_pii
      = true := by
  refine ⟨by decide, by decide⟩

/-- C6 amended: idempotence holds on clean text: whenever a first
application finds no PII, applying redact to its output again finds
nothing; on text whose first pass did redact something, a replacement can
unblock an earlier rule (the phone rule's lookahead), so full idempotence
on redacted output fails. -/
theorem c6_idempotent_on_clean (preserve : Bool) (st st' : Stats) (text : List Char)
    (h : (redactStr preserve st text).1.has_pii = false) :
    (redactStr preserve st'
      (redactStr preserve st text).1.redacted_text).1.has_pii = false := by
  by_cases he : text.isEmpty = true
  · have h0 : text = [] := List.isEmpty_iff.mp he
    subst h0
    rfl
  · simp only [redactStr, he, Bool.false_eq_true, if_false] at h
    have hrd : (runPatterns preserve PATTERNS st text).rd = [] := by
      cases hx : (runPatterns preserve PATTERNS st text).rd with
      | nil => rfl
      | cons a l => rw [hx] at h; simp at h
    have htext : (runPatterns preserve PATTERNS st text).text = text :=
      runPatterns_rd_nil preserve PATTERNS st text hrd
    have hrt : (redactStr preserve st text).1.redacted_text = text := by
      simp only [redactStr, he, Bool.false_eq_true, if_false]
      exact htext
    rw [hrt]
    simp only [redactStr, he, Bool.false_eq_true, if_false]
    have hp := (runPatterns_params preserve PATTERNS st st' text).2
    rw [← hp, hrd]
    rfl

/-- Witness for the amended C6 at a concrete clean input. -/
theorem c6_idempotent_on_clean_witness :
    (redactStr true initStats "hello there".data).1.has_pii = false ∧
    (redactStr true initStats
      (redactStr true initStats "hello there".data).1.redacted_text).1.has_pii = false :=
  ⟨by decide, c6_idempotent_on_clean true initStats initStats "hello there".data (by decide)⟩

/-- C7: count correctness: if the table splits around a category whose
block B contains exactly one instance of its pattern wherever B is
followed, and every earlier rule finds nothing in B, then redacting N
concatenated copies of B records exactly N under that category. -/
theorem c7_count_correctness (preserve : Bool) (st : Stats) (cat : String)
    (pat : List RE) (rp : List Char) (pre post : List PatEntry) (B : List Char) (N : Nat)
    (hsplit : PATTERNS = pre ++ ⟨cat, pat, rp⟩ :: post)
    (hskip : ((cat == "email") && preserve) = false)
    (hpre : ∀ e ∈ pre, ∀ t, (applyPat e (B ++ t)).1 = (applyPat e t).1)
    (hself : ∀ t, (applyPat ⟨cat, pat, rp⟩ (B ++ t)).1 = (applyPat ⟨cat, pat, rp⟩ t).1 + 1)
    (hB : B ≠ []) (hN : 1 ≤ N) :
    ((redactStr preserve st (repeatL B N)).1.redactions).lookup cat = some N := by
  have hne : repeatL B N ≠ [] := repeatL_ne_nil B hB N hN
  have hemp : ¬ ((repeatL B N).isEmpty = true) := by
    simp [List.isEmpty_iff, hne]
  simp only [redactStr, hemp, Bool.false_eq_true, if_false]
  rw [hsplit]
  have hz : ∀ e ∈ pre, (applyPat e (repeatL B N)).1 = 0 := fun e m =>
    applyPat_repeat_zero e B (hpre e m) N
  rw [runPatterns_pre_zero preserve pre (⟨cat, pat, rp⟩ :: post) st (repeatL B N) hz]
  have hcnt : (applyPat ⟨cat, pat, rp⟩ (repeatL B N)).1 = N :=
    applyPat_repeat_self ⟨cat, pat, rp⟩ B hself N
  have hpos : 0 < (applyPat ⟨cat, pat, rp⟩ (repeatL B N)).1 := by rw [hcnt]; omega
  simp only [runPatterns, hskip, Bool.false_eq_true, if_false]
  rw [if_pos hpos]
  simp only [hcnt]
  simp [List.lookup]

set_option maxHeartbeats 1000000 in
/-- Witness for C7: the uk_sort category, the block "12-34-56; ", N = 2. -/
theorem c7_count_correctness_witness :
    (PATTERNS = ukSortPre ++ ukSortEntry :: ukSortPost) ∧
    ((("uk_sort" : String) == "email") && true) = false ∧
    (∀ e ∈ ukSortPre, ∀ t, (applyPat e (Buk ++ t)).1 = (applyPat e t).1) ∧
    (∀ t, (applyPat ukSortEntry (Buk ++ t)).1 = (applyPat ukSortEntry t).1 + 1) ∧
    Buk ≠ [] ∧ 1 ≤ 2 ∧
    ((redactStr true initStats (repeatL Buk 2)).1.redactions).lookup "uk_sort" = some 2 := by
  have h1 : PATTERNS = ukSortPre ++ ukSortEntry :: ukSortPost := rfl
  have h2 : ((("uk_sort" : String) == "email") && true) = false := rfl
  have h3 : ∀ e ∈ ukSortPre, ∀ t, (applyPat e (Buk ++ t)).1 = (applyPat e t).1 := by
    intro e he t
    simp only [ukSortPre, List.mem_cons, List.not_mem_nil, or_false] at he
    rcases he with rfl | rfl | rfl | rfl | rfl | rfl | rfl | rfl | rfl <;> rfl
  have h4 : ∀ t, (applyPat ukSortEntry (Buk ++ t)).1 = (applyPat ukSortEntry t).1 + 1 := by
    intro t
    have hstep : (applyPat ukSortEntry (Buk ++ t)).1
        = (subScanF ukSortPat "[UK_SORT_REDACTED]".data (t.length + 7) false t).1 + 1 := rfl
    rw [hstep,
      subScan_fuel ukSortPat "[UK_SORT_REDACTED]".data (t.length + 7) t.length false t
        (by omega) (le_refl _)]
    rfl
  have h5 : Buk ≠ [] := by decide
  exact ⟨h1, h2, h3, h4, h5, by omega,
    c7_count_correctness true initStats "uk_sort" ukSortPat "[UK_SORT_REDACTED]".data
      ukSortPre ukSortPost Buk 2 h1 h2 h3 h4 h5 (by omega)⟩

/-- C8: the credit-card scenario: exactly one credit_card redaction and
the expected redacted text. -/
theorem c8_credit_card_scenario :
    (redactStr true initStats "My card is 4532-1488-0343-6467".data).1.redactions
      = [("credit_card", 1)] ∧
    (redactStr true initStats "My card is 4532-1488-0343-6467".data).1.redacted_text
      = "My card is [CREDIT_CARD_REDACTED]".data := by
  refine ⟨by decide, by decide⟩

/-- C9: the India phone scenario: the prefixed number counts under
phone_india_code, the bare one under phone_india, two redactions total. -/
theorem c9_india_phones_scenario :
    (redactStr true initStats "Call 9876543210 or +91 9876543210".data).1.redactions
      = [("phone_india_code", 1), ("phone_india", 1)] ∧
    sumVals (redactStr true initStats "Call 9876543210 or +91 9876543210".data).1.redactions
      = 2 ∧
    (redactStr true initStats "Call 9876543210 or +91 9876543210".data).1.redacted_text
      = "Call [PHONE_REDACTED] or [PHONE_REDACTED]".data := by
  refine ⟨by decide, by decide, by decide⟩

/-- C10: stats start at zero, each call adds the redaction counts of its
result to the total and to the per-category figures, and the invariant
that total equals the sum of the by-type figures holds after any sequence
of calls. -/
theorem c10_stats_accumulation :
    initStats.total = 0 ∧ initStats.by_type = [] ∧
    (∀ (preserve : Bool) (st : Stats) (text : List Char),
      (redactStr preserve st text).2.total
        = st.total + sumVals (redactStr preserve st text).1.redactions) ∧
    (∀ (preserve : Bool) (st : Stats) (text : List Char) (c : String),
      lookupD (redactStr preserve st text).2.by_type c
        = lookupD st.by_type c + lookupD (redactStr preserve st text).1.redactions c) ∧
    (∀ (preserve : Bool) (texts : List (List Char)),
      (runCalls preserve texts).total = sumVals (runCalls preserve texts).by_type) := by
  refine ⟨rfl, rfl, ?_, ?_, ?_⟩
  · intro p st text
    by_cases he : text.isEmpty = true
    · simp [redactStr, he, sumVals]
    · simp only [redactStr, he, Bool.false_eq_true, if_false]
      exact runPatterns_total p PATTERNS st text
  · intro p st text c
    by_cases he : text.isEmpty = true
    · simp [redactStr, he, lookupD, List.lookup]
    · simp only [redactStr, he, Bool.false_eq_true, if_false]
      exact runPatterns_bytype p PATTERNS st text c patterns_names_nodup
  · intro p texts
    have main : ∀ (ts : List (List Char)) (s0 : Stats), s0.total = sumVals s0.by_type →
        (ts.foldl (fun st t => (redactStr p st t).2) s0).total
          = sumVals (ts.foldl (fun st t => (redactStr p st t).2) s0).by_type := by
      intro ts
      induction ts with
      | nil => intro s0 h; exact h
      | cons t ts ih =>
        intro s0 h
        simp only [List.foldl_cons]
        apply ih
        by_cases he : t.isEmpty = true
        · simpa [redactStr, he] using h
        · simp only [redactStr, he, Bool.false_eq_true, if_false]
          exact runPatterns_inv p PATTERNS s0 t h
    exact main texts initStats rfl

end PII
